import Mathlib

/-
Verification development for the omnisnip snippet manager.
This file gives a shallow embedding of the StorageService
(src/apps/cli/src/services/storage.service.ts) together with the shared
type declarations (packages/types/src), and proves the specified
properties of its CRUD, filter, sort and search operations.

Modelling conventions:
- JS strings are modelled as Lean `String`; the per-character operations
  used by the service (toLowerCase, includes, lexicographic `<`) are
  defined below over `String.data` so that they evaluate in the kernel.
- Timestamps are modelled by the underlying instant (`Nat`, as returned
  by `Date.getTime`); `new Date()` is modelled by an explicitly injected
  `now : Nat` argument, and `uuidv4()` by an injected `freshId : String`.
- The backing file is modelled by `FileState`: absent, present but
  unparseable, or holding a parsed snippet array.  A successful write
  replaces the state by `FileState.valid data`.
- `Array.prototype.sort` with a comparator `cmp` is (since ES2019) a
  stable sort of the array by the total preorder `cmp a b ≤ 0`; a stable
  sort for a total preorder is extensionally unique, so the stable
  `List.insertionSort` by that preorder is an exact model.
-/

namespace Omnisnip

/-- JS `String.prototype.toLowerCase`, character by character. -/
def lowerStr (s : String) : String := ⟨s.data.map Char.toLower⟩

/-- Lexicographic `<` on character lists, modelling the JS `<` operator on
strings (code-unit lexicographic comparison). -/
def listLtB : List Char → List Char → Bool
  | [], [] => false
  | [], _ :: _ => true
  | _ :: _, [] => false
  | a :: as, b :: bs => if a < b then true else if b < a then false else listLtB as bs

/-- JS `<` on strings. -/
def strLtB (a b : String) : Bool := listLtB a.data b.data

/-- Boolean list-prefix test, helper for the substring test. -/
def isPrefixB : List Char → List Char → Bool
  | [], _ => true
  | _ :: _, [] => false
  | a :: as, b :: bs => a == b && isPrefixB as bs

/-- Boolean contiguous-sublist test, helper for the substring test. -/
def isInfixB (sub : List Char) : List Char → Bool
  | [] => sub.isEmpty
  | b :: bs => isPrefixB sub (b :: bs) || isInfixB sub bs

/-- JS `String.prototype.includes`: `strIncludes s sub` is true iff `sub`
occurs as a contiguous substring of `s` (always true for the empty `sub`). -/
def strIncludes (s sub : String) : Bool := isInfixB sub.data s.data

/-- packages/types SortOrder: "asc" | "desc". -/
inductive SortOrder where
  | asc
  | desc
deriving DecidableEq

/-- packages/types SnippetSortField. -/
inductive SnippetSortField where
  | createdAt
  | updatedAt
  | title
  | language
  | category
  | favorite
deriving DecidableEq

/-- packages/types Snippet.  `language` and `category` are string-valued
enumerations in the source; they are modelled as strings, which is faithful
for every operation of the service (only equality tests are performed). -/
structure Snippet where
  id : String
  title : String
  description : String
  code : String
  language : String
  category : String
  tags : List String
  createdAt : Nat
  updatedAt : Nat
  favorite : Bool
deriving DecidableEq

/-- packages/types CreateSnippetInput: tags and favorite are optional. -/
structure CreateSnippetInput where
  title : String
  description : String
  code : String
  language : String
  category : String
  tags : Option (List String) := none
  favorite : Option Bool := none
deriving DecidableEq

/-- packages/types UpdateSnippetInput: every updatable field is optional. -/
structure UpdateSnippetInput where
  title : Option String := none
  description : Option String := none
  code : Option String := none
  language : Option String := none
  category : Option String := none
  tags : Option (List String) := none
  favorite : Option Bool := none
deriving DecidableEq

/-- packages/types SnippetSort. -/
structure SnippetSort where
  field : SnippetSortField
  order : SortOrder
deriving DecidableEq

/-- packages/types SnippetFilter: all criteria optional (absent = `none`). -/
structure SnippetFilter where
  query : Option String := none
  language : Option String := none
  category : Option String := none
  tags : Option (List String) := none
  favorite : Option Bool := none
  sortBy : Option SnippetSortField := none
  sortOrder : Option SortOrder := none
deriving DecidableEq

/-- State of the backing snippets.json file. -/
inductive FileState where
  | missing
  | corrupt
  | valid (snippets : List Snippet)
deriving DecidableEq

/-- The error raised by readJSONFile when the file exists but cannot be
read or parsed (the spec's StorageReadError). -/
inductive StorageError where
  | readError
deriving DecidableEq

/-- StorageService.readJSONFile: ENOENT yields an empty array; any other
read/parse failure is rethrown as a storage read error. -/
def readJSONFile : FileState → Except StorageError (List Snippet)
  | .missing => .ok []
  | .corrupt => .error .readError
  | .valid snippets => .ok snippets

/-- The record built inside StorageService.add: id from uuidv4 (injected
here as `freshId`), the input fields, favorite and tags defaulted, and the
two timestamps both taken at `now`. -/
def newSnippet (input : CreateSnippetInput) (freshId : String) (now : Nat) : Snippet :=
  { id := freshId
    title := input.title
    description := input.description
    code := input.code
    language := input.language
    category := input.category
    favorite := input.favorite.getD false
    tags := input.tags.getD []
    createdAt := now
    updatedAt := now }

/-- In-memory part of StorageService.add: push the new record and return
the new array together with the created record. -/
def addList (snippets : List Snippet) (input : CreateSnippetInput)
    (freshId : String) (now : Nat) : List Snippet × Snippet :=
  let s := newSnippet input freshId now
  (snippets ++ [s], s)

/-- StorageService.add: read, push, write, return the created record. -/
def add (st : FileState) (input : CreateSnippetInput) (freshId : String)
    (now : Nat) : Except StorageError (FileState × Snippet) :=
  match readJSONFile st with
  | .error e => .error e
  | .ok snippets =>
    let r := addList snippets input freshId now
    .ok (.valid r.1, r.2)

/-- A run of sequential adds; each entry supplies the creation input, the
uuidv4 output and the clock reading of its call.  Returns the final array
and the list of created records in creation order. -/
def addMany (snippets : List Snippet) :
    List (CreateSnippetInput × String × Nat) → List Snippet × List Snippet
  | [] => (snippets, [])
  | e :: rest =>
    let r := addList snippets e.1 e.2.1 e.2.2
    let m := addMany r.1 rest
    (m.1, r.2 :: m.2)

/-- StorageService.getAll. -/
def getAll (st : FileState) : Except StorageError (List Snippet) :=
  readJSONFile st

/-- The scan in StorageService.getById: first record with matching id. -/
def findById (snippets : List Snippet) (id : String) : Option Snippet :=
  snippets.find? (fun snippet => snippet.id == id)

/-- StorageService.getById. -/
def getById (st : FileState) (id : String) :
    Except StorageError (Option Snippet) :=
  match readJSONFile st with
  | .error e => .error e
  | .ok snippets => .ok (findById snippets id)

/-- The record built inside StorageService.update: id and createdAt kept
from the original, each data field taken from the input when present
(`?? original`), updatedAt set to now. -/
def applyUpdate (original : Snippet) (input : UpdateSnippetInput) (now : Nat) : Snippet :=
  { id := original.id
    createdAt := original.createdAt
    title := input.title.getD original.title
    description := input.description.getD original.description
    code := input.code.getD original.code
    language := input.language.getD original.language
    category := input.category.getD original.category
    tags := input.tags.getD original.tags
    favorite := input.favorite.getD original.favorite
    updatedAt := now }

/-- In-memory part of StorageService.update: findIndex on the id followed
by in-place replacement of that element (the first match, its position
unchanged); `none` when no record matches. -/
def updateList (id : String) (input : UpdateSnippetInput) (now : Nat) :
    List Snippet → Option (List Snippet × Snippet)
  | [] => none
  | s :: rest =>
    if s.id == id then
      let u := applyUpdate s input now
      some (u :: rest, u)
    else
      match updateList id input now rest with
      | none => none
      | some r => some (s :: r.1, r.2)

/-- StorageService.update: read; on a miss return null without writing;
on a hit write the patched array and return the updated record. -/
def update (st : FileState) (id : String) (input : UpdateSnippetInput)
    (now : Nat) : Except StorageError (FileState × Option Snippet) :=
  match readJSONFile st with
  | .error e => .error e
  | .ok snippets =>
    match updateList id input now snippets with
    | none => .ok (st, none)
    | some r => .ok (.valid r.1, some r.2)

/-- In-memory part of StorageService.delete: drop every record whose id
matches; `some filtered` when the length changed (a write happens with
that content), `none` when nothing matched (no write). -/
def deleteList (snippets : List Snippet) (id : String) : Option (List Snippet) :=
  let filtered := snippets.filter (fun snippet => snippet.id != id)
  if filtered.length != snippets.length then some filtered else none

/-- StorageService.delete: read; write the filtered array and return true
iff a record was removed, otherwise return false without writing. -/
def delete (st : FileState) (id : String) :
    Except StorageError (FileState × Bool) :=
  match readJSONFile st with
  | .error e => .error e
  | .ok snippets =>
    match deleteList snippets id with
    | some filtered => .ok (.valid filtered, true)
    | none => .ok (st, false)

/-- JS truthiness of an optional string criterion: both an absent field
and the empty string are falsy. -/
def truthyStr : Option String → Bool
  | none => false
  | some s => s != ""

/-- The tags guard in StorageService.filter: `filter.tags &&
filter.tags.length > 0` (an array is always truthy, so only presence and
non-emptiness matter). -/
def tagsActive : Option (List String) → Bool
  | none => false
  | some ts => ts.length != 0

/-- The query test in StorageService.filter: case-insensitive substring
match against title, description or code. -/
def matchesQuery (q : String) (snippet : Snippet) : Bool :=
  let lowerSearchQuery := lowerStr q
  strIncludes (lowerStr snippet.title) lowerSearchQuery ||
  strIncludes (lowerStr snippet.description) lowerSearchQuery ||
  strIncludes (lowerStr snippet.code) lowerSearchQuery

/-- The filter predicate of StorageService.filter, with the source's
early-return checks in order: query, language, category, tags, favorite. -/
def snippetPasses (f : SnippetFilter) (snippet : Snippet) : Bool :=
  if truthyStr f.query && !matchesQuery (f.query.getD "") snippet then false
  else if truthyStr f.language && !(snippet.language == f.language.getD "") then false
  else if truthyStr f.category && !(snippet.category == f.category.getD "") then false
  else if tagsActive f.tags && !((f.tags.getD []).any (fun tag => snippet.tags.contains tag)) then false
  else if f.favorite.isSome && !(snippet.favorite == f.favorite.getD false) then false
  else true

/-- The dynamic sort-key extraction in StorageService.sortSnippets:
timestamp fields become their instant, booleans become 1/0, strings are
lower-cased. -/
inductive SortValue where
  | num (n : Nat)
  | str (s : String)
deriving DecidableEq

/-- Sort key of a snippet for a sort field, after the runtime-type
conversions performed by the comparator. -/
def sortVal : SnippetSortField → Snippet → SortValue
  | .createdAt, s => .num s.createdAt
  | .updatedAt, s => .num s.updatedAt
  | .title, s => .str (lowerStr s.title)
  | .language, s => .str (lowerStr s.language)
  | .category, s => .str (lowerStr s.category)
  | .favorite, s => .num (if s.favorite then 1 else 0)

/-- The JS `<` used on the converted sort keys (both keys of a given field
always have the same runtime type, so the mixed cases are unreachable). -/
def svLtB : SortValue → SortValue → Bool
  | .num a, .num b => decide (a < b)
  | .str a, .str b => strLtB a b
  | .num _, .str _ => false
  | .str _, .num _ => false

/-- The ascending comparison of the comparator: -1 / 0 / 1. -/
def compareVals (a b : SortValue) : Int :=
  if svLtB a b then -1 else if svLtB b a then 1 else 0

/-- The full comparator of StorageService.sortSnippets:
`order === "asc" ? comparison : -comparison`. -/
def compareBy (sort : SnippetSort) (a b : Snippet) : Int :=
  let comparison := compareVals (sortVal sort.field a) (sortVal sort.field b)
  match sort.order with
  | .asc => comparison
  | .desc => -comparison

/-- The total preorder `comparator a b ≤ 0` induced by the comparator. -/
def sortLe (sort : SnippetSort) (a b : Snippet) : Prop := compareBy sort a b ≤ 0

instance (sort : SnippetSort) : DecidableRel (sortLe sort) :=
  fun _ _ => Int.decLe _ _

/-- StorageService.sortSnippets: a stable sort of the array by the
comparator (see the header note: stable sorting by a total preorder is
extensionally unique, so the stable insertion sort is an exact model of
the ES2019 stable Array.prototype.sort). -/
def sortSnippets (snippets : List Snippet) (sort : SnippetSort) : List Snippet :=
  snippets.insertionSort (sortLe sort)

/-- In-memory part of StorageService.filter: predicate pass, then sort
only when sortBy is supplied, with sortOrder defaulting to ascending. -/
def filterList (snippets : List Snippet) (f : SnippetFilter) : List Snippet :=
  let filtered := snippets.filter (snippetPasses f)
  match f.sortBy with
  | some field => sortSnippets filtered ⟨field, f.sortOrder.getD .asc⟩
  | none => filtered

/-- StorageService.filter. -/
def filter (st : FileState) (f : SnippetFilter) :
    Except StorageError (List Snippet) :=
  match readJSONFile st with
  | .error e => .error e
  | .ok snippets => .ok (filterList snippets f)

/-- StorageService.search: `this.filter({ query: searchQuery })`. -/
def search (st : FileState) (searchQuery : String) :
    Except StorageError (List Snippet) :=
  filter st { query := some searchQuery }

/-- Sample creation input used by the concrete witnesses below. -/
def sampleInput : CreateSnippetInput :=
  { title := "Hello World", description := "greeting", code := "print(1)",
    language := "python", category := "example" }

/- ------------------------------------------------------------------ -/
/- General lemmas about the embedded operations                        -/
/- ------------------------------------------------------------------ -/

theorem filterList_no_criteria (snippets : List Snippet) :
    filterList snippets {} = snippets := by
  show snippets.filter (snippetPasses {}) = snippets
  exact List.filter_eq_self.mpr (fun a _ => rfl)

theorem filterList_blank_query (snippets : List Snippet) :
    filterList snippets { query := some "" } = snippets := by
  show snippets.filter (snippetPasses { query := some "" }) = snippets
  exact List.filter_eq_self.mpr (fun a _ => rfl)

theorem findById_append_fresh (l : List Snippet) (s : Snippet)
    (h : s.id ∉ l.map Snippet.id) : findById (l ++ [s]) s.id = some s := by
  induction l with
  | nil => simp [findById, List.find?]
  | cons a t ih =>
    simp only [List.map_cons, List.mem_cons, not_or] at h
    have ha : (a.id == s.id) = false := by
      rw [beq_eq_false_iff_ne]
      exact fun e => h.1 (e.symm)
    show List.find? (fun snippet => snippet.id == s.id) ((a :: t) ++ [s]) = some s
    simp only [List.cons_append, List.find?_cons, ha]
    exact ih h.2

/- ------------------------------------------------------------------ -/
/- Claim theorems                                                      -/
/- ------------------------------------------------------------------ -/

/-- Claim C1: for every valid creation input on any store state on which add
succeeds, add followed by getById of the returned record's id returns a
record equal to the one returned by add, timestamps included.  The
hypothesis injects the uuidv4 contract: the generated id is not already
present in the store. -/
theorem add_getById_roundtrip (st : FileState) (input : CreateSnippetInput)
    (freshId : String) (now : Nat)
    (hfresh : ∀ snippets, readJSONFile st = .ok snippets →
      freshId ∉ snippets.map Snippet.id) :
    ∀ st2 r, add st input freshId now = .ok (st2, r) →
      getById st2 r.id = .ok (some r) := by
  intro st2 r hadd
  cases st with
  | corrupt => exact absurd hadd (by simp [add, readJSONFile])
  | missing =>
    have h := hfresh [] rfl
    simp only [add, readJSONFile, Except.ok.injEq, Prod.mk.injEq] at hadd
    obtain ⟨hst, hr⟩ := hadd
    subst hst
    subst hr
    simp only [getById, readJSONFile, Except.ok.injEq]
    exact findById_append_fresh [] (newSnippet input freshId now) (by simp)
  | valid snippets =>
    have h := hfresh snippets rfl
    simp only [add, readJSONFile, Except.ok.injEq, Prod.mk.injEq] at hadd
    obtain ⟨hst, hr⟩ := hadd
    subst hst
    subst hr
    simp only [getById, readJSONFile, Except.ok.injEq]
    exact findById_append_fresh snippets (newSnippet input freshId now) h

/-- Witness for C1 at a concrete store, input, fresh id and clock. -/
theorem add_getById_roundtrip_witness :
    getById (.valid [newSnippet sampleInput ("id-1") 5])
        (newSnippet sampleInput ("id-1") 5).id =
      .ok (some (newSnippet sampleInput ("id-1") 5)) :=
  add_getById_roundtrip (.valid []) sampleInput ("id-1") 5
    (by intro l hl
        simp only [readJSONFile, Except.ok.injEq] at hl
        subst hl
        simp)
    (.valid [newSnippet sampleInput ("id-1") 5]) (newSnippet sampleInput ("id-1") 5) rfl

/-- Claim C3: search is definitionally filter with only the query criterion set,
for every store state and every query string. -/
theorem search_eq_filter_query (st : FileState) (text : String) :
    search st text = filter st { query := some text } := rfl

/-- Claim C6: getAll on a missing backing file is the empty collection, not an
error; getAll on an existing but unparseable backing file fails with the
storage read error rather than returning data. -/
theorem getAll_lazy_init_and_corrupt :
    getAll .missing = .ok [] ∧ getAll .corrupt = .error .readError :=
  ⟨rfl, rfl⟩

/-- Claim C9: filter with no criteria returns the whole collection in insertion
order, i.e. agrees with getAll, on every store state. -/
theorem filter_no_criteria_eq_getAll (st : FileState) :
    filter st {} = getAll st := by
  cases st with
  | missing => rfl
  | corrupt => rfl
  | valid snippets =>
    simp only [filter, getAll, readJSONFile, Except.ok.injEq]
    exact filterList_no_criteria snippets

/-- Claim C10: an empty-string query criterion applies no query filtering: the
result is the whole collection, the same as omitting the query field, and
search with the empty string returns the entire collection. -/
theorem filter_blank_query_no_filtering (snippets : List Snippet) (st : FileState) :
    filterList snippets { query := some "" } = snippets ∧
    filterList snippets { query := some "" } = filterList snippets {} ∧
    search st "" = getAll st := by
  refine ⟨filterList_blank_query snippets, ?_, ?_⟩
  · rw [filterList_blank_query, filterList_no_criteria]
  · cases st with
    | missing => rfl
    | corrupt => rfl
    | valid l =>
      simp only [search, filter, getAll, readJSONFile, Except.ok.injEq]
      exact filterList_blank_query l

/- ------------------------------------------------------------------ -/
/- Concrete records used by the witnesses                              -/
/- ------------------------------------------------------------------ -/

/-- Concrete record used by witnesses: tagged with "a". -/
def snipA : Snippet :=
  { id := "i1", title := "Apple", description := "first", code := "x = 1",
    language := "python", category := "example", tags := ["a"],
    createdAt := 1, updatedAt := 1, favorite := false }

/-- Concrete record used by witnesses: no tags. -/
def snipB : Snippet :=
  { id := "i2", title := "Banana", description := "second", code := "x = 2",
    language := "python", category := "example", tags := [],
    createdAt := 2, updatedAt := 2, favorite := true }

/-- Concrete partial update used by witnesses. -/
def sampleUpdate : UpdateSnippetInput := { title := some "Apricot" }

/-- Scenario record: title "Zebra", earliest createdAt. -/
def zebraSnip : Snippet :=
  { id := "z1", title := "Zebra", description := "", code := "",
    language := "go", category := "other", tags := [],
    createdAt := 10, updatedAt := 10, favorite := false }

/-- Scenario record: title "Apple", middle createdAt. -/
def appleSnip : Snippet :=
  { id := "a1", title := "Apple", description := "", code := "",
    language := "go", category := "other", tags := [],
    createdAt := 20, updatedAt := 20, favorite := false }

/-- Scenario record: title "Mango", latest createdAt. -/
def mangoSnip : Snippet :=
  { id := "m1", title := "Mango", description := "", code := "",
    language := "go", category := "other", tags := [],
    createdAt := 30, updatedAt := 30, favorite := false }

/-- Case variants for the case-insensitivity witness. -/
def upperApple : Snippet := { snipA with title := "APPLE" }

/-- Case variants for the case-insensitivity witness. -/
def lowerApple : Snippet := { snipA with title := "apple" }

/-- Case variants for the case-insensitivity witness. -/
def upperBanana : Snippet := { snipB with title := "BANANA" }

/-- Case variants for the case-insensitivity witness. -/
def lowerBanana : Snippet := { snipB with title := "banana" }

/- ------------------------------------------------------------------ -/
/- Further helper lemmas                                               -/
/- ------------------------------------------------------------------ -/

theorem addMany_map_id (snippets : List Snippet)
    (entries : List (CreateSnippetInput × String × Nat)) :
    (addMany snippets entries).2.map Snippet.id = entries.map (fun e => e.2.1) := by
  induction entries generalizing snippets with
  | nil => rfl
  | cons e rest ih => simp [addMany, addList, newSnippet, ih]

theorem listLtB_irrefl (l : List Char) : listLtB l l = false := by
  induction l with
  | nil => rfl
  | cons a as ih => simp [listLtB, ih, lt_irrefl]

theorem compareVals_self (k : SortValue) : compareVals k k = 0 := by
  cases k with
  | num n => simp [compareVals, svLtB, Nat.lt_irrefl]
  | str s => simp [compareVals, svLtB, strLtB, listLtB_irrefl]

theorem sortLe_of_key_eq (sort : SnippetSort) (a b : Snippet)
    (h : sortVal sort.field a = sortVal sort.field b) : sortLe sort a b := by
  show compareBy sort a b ≤ 0
  cases horder : sort.order <;> simp [compareBy, h, compareVals_self, horder]

theorem snippetPasses_tags_nonempty (ts : List String) (hts : ts ≠ [])
    (s : Snippet) :
    snippetPasses { tags := some ts } s =
      ts.any (fun tag => s.tags.contains tag) := by
  have hlen : (ts.length != 0) = true := by
    simp only [bne_iff_ne, ne_eq]
    exact fun h2 => hts (List.length_eq_zero.mp h2)
  cases hany : ts.any (fun tag => s.tags.contains tag) with
  | true =>
    show (if (ts.length != 0) && !(ts.any fun tag => s.tags.contains tag)
        then false else true) = true
    rw [hany]
    simp
  | false =>
    show (if (ts.length != 0) && !(ts.any fun tag => s.tags.contains tag)
        then false else true) = false
    rw [hany, hlen]
    simp

theorem filter_id_found (snippets : List Snippet) (id : String)
    (hnd : (snippets.map Snippet.id).Nodup) (hmem : id ∈ snippets.map Snippet.id) :
    snippets.filter (fun s => s.id != id) =
      snippets.eraseP (fun s => s.id == id) ∧
    (snippets.filter (fun s => s.id != id)).length + 1 = snippets.length := by
  induction snippets with
  | nil => simp at hmem
  | cons a t ih =>
    simp only [List.map_cons, List.nodup_cons] at hnd
    by_cases ha : a.id = id
    · have hnt : ∀ s ∈ t, (s.id != id) = true := by
        intro s hs
        simp only [bne_iff_ne, ne_eq]
        intro e
        have hin : s.id ∈ t.map Snippet.id := List.mem_map_of_mem _ hs
        rw [e, ← ha] at hin
        exact hnd.1 hin
      have hfil : t.filter (fun s => s.id != id) = t := List.filter_eq_self.mpr hnt
      constructor
      · simp [List.filter_cons, List.eraseP_cons, ha, hfil]
      · simp [List.filter_cons, ha, hfil]
    · have hmem2 : id ∈ t.map Snippet.id := by
        simp only [List.map_cons, List.mem_cons] at hmem
        rcases hmem with h | h
        · exact absurd h.symm ha
        · exact h
      obtain ⟨ih1, ih2⟩ := ih hnd.2 hmem2
      constructor
      · simp [List.filter_cons, List.eraseP_cons, bne_iff_ne, ha, ih1]
      · simp only [List.filter_cons, List.length_cons]
        have ha2 : (a.id != id) = true := by
          simp only [bne_iff_ne, ne_eq]
          exact ha
        rw [ha2]
        simp only [if_true, List.length_cons]
        omega

/- ------------------------------------------------------------------ -/
/- Remaining claim theorems                                            -/
/- ------------------------------------------------------------------ -/

/-- Claim C2: add builds the created record from the input with id equal
to the supplied fresh identifier and two equal timestamps, appends it at
the end of the collection, persists the whole collection, and returns it;
over any run of sequential adds whose injected uuidv4 outputs are pairwise
distinct and absent from the store (the uuid contract), every created
record's identifier differs from every other record's identifier. -/
theorem add_spec (snippets : List Snippet) (input : CreateSnippetInput)
    (freshId : String) (now : Nat)
    (entries : List (CreateSnippetInput × String × Nat))
    (hids : (entries.map (fun e => e.2.1)).Nodup)
    (hdisj : ∀ e ∈ entries, e.2.1 ∉ snippets.map Snippet.id) :
    ((addList snippets input freshId now).2 = newSnippet input freshId now ∧
      (newSnippet input freshId now).id = freshId ∧
      (newSnippet input freshId now).createdAt = now ∧
      (newSnippet input freshId now).updatedAt = now ∧
      (addList snippets input freshId now).1 =
        snippets ++ [newSnippet input freshId now] ∧
      ∀ st, readJSONFile st = .ok snippets →
        add st input freshId now =
          .ok (.valid (snippets ++ [newSnippet input freshId now]),
            newSnippet input freshId now)) ∧
    (((addMany snippets entries).2.map Snippet.id).Nodup ∧
      ∀ r ∈ (addMany snippets entries).2, r.id ∉ snippets.map Snippet.id) := by
  refine ⟨⟨rfl, rfl, rfl, rfl, rfl, ?_⟩, ?_, ?_⟩
  · intro st hst
    simp [add, hst, addList]
  · rw [addMany_map_id]
    exact hids
  · intro r hr hmem
    have hin : r.id ∈ (addMany snippets entries).2.map Snippet.id :=
      List.mem_map_of_mem _ hr
    rw [addMany_map_id] at hin
    obtain ⟨e, he, heq⟩ := List.mem_map.mp hin
    refine hdisj e he ?_
    rw [heq]
    exact hmem

/-- Witness for C2: two sequential adds on the empty store with distinct
fresh ids produce records with pairwise-distinct identifiers. -/
theorem add_spec_witness :
    ((addMany [] [(sampleInput, ("id-1"), 5), (sampleInput, ("id-2"), 6)]).2.map
      Snippet.id).Nodup :=
  (add_spec [] sampleInput ("id-0") 4
    [(sampleInput, ("id-1"), 5), (sampleInput, ("id-2"), 6)]
    (by decide) (by decide)).2.1

/-- Claim C4: with a non-empty tags criterion a record is returned iff it
shares at least one tag with the criterion (OR semantics); an empty tags
sequence applies no tag filtering and is the same as omitting tags. -/
theorem filter_tags_semantics (snippets : List Snippet) (ts : List String) :
    (ts ≠ [] → ∀ s : Snippet,
      (s ∈ filterList snippets { tags := some ts } ↔
        s ∈ snippets ∧ ∃ t ∈ ts, t ∈ s.tags)) ∧
    filterList snippets { tags := some [] } = filterList snippets {} ∧
    filterList snippets { tags := some [] } = snippets := by
  have hempty : filterList snippets { tags := some [] } = snippets := by
    show snippets.filter (snippetPasses { tags := some [] }) = snippets
    exact List.filter_eq_self.mpr (fun a _ => rfl)
  refine ⟨?_, by rw [hempty, filterList_no_criteria], hempty⟩
  intro hts s
  show s ∈ snippets.filter (snippetPasses { tags := some ts }) ↔ _
  rw [List.mem_filter, snippetPasses_tags_nonempty ts hts s]
  simp [List.any_eq_true]

/-- Witness for C4: a record tagged "a" is returned by the tags criterion
["a", "b"] on a concrete two-record collection. -/
theorem filter_tags_semantics_witness :
    snipA ∈ filterList [snipA, snipB] { tags := some ["a", "b"] } :=
  ((filter_tags_semantics [snipA, snipB] ["a", "b"]).1 (by decide) snipA).mpr
    (by decide)

/-- Claim C5: on a collection whose identifiers are unique (the documented
data-model invariant), delete of an unmatched id returns false and writes
nothing, and delete of a matched id removes exactly the first matching
record, persists the filtered collection, returns true, and shrinks the
collection length by exactly one. -/
theorem delete_spec (snippets : List Snippet) (id : String)
    (hnd : (snippets.map Snippet.id).Nodup) :
    (id ∉ snippets.map Snippet.id →
      deleteList snippets id = none ∧
      ∀ st, readJSONFile st = .ok snippets → delete st id = .ok (st, false)) ∧
    (id ∈ snippets.map Snippet.id →
      deleteList snippets id = some (snippets.eraseP (fun s => s.id == id)) ∧
      (snippets.eraseP (fun s => s.id == id)).length + 1 = snippets.length ∧
      ∀ st, readJSONFile st = .ok snippets →
        delete st id =
          .ok (.valid (snippets.eraseP (fun s => s.id == id)), true)) := by
  constructor
  · intro hmem
    have hfil : snippets.filter (fun s => s.id != id) = snippets :=
      List.filter_eq_self.mpr (by
        intro s hs
        simp only [bne_iff_ne, ne_eq]
        intro e
        exact hmem (e ▸ List.mem_map_of_mem _ hs))
    have hdel : deleteList snippets id = none := by
      simp [deleteList, hfil]
    refine ⟨hdel, ?_⟩
    intro st hst
    simp [delete, hst, hdel]
  · intro hmem
    obtain ⟨h1, h2⟩ := filter_id_found snippets id hnd hmem
    have hlen : ((snippets.filter (fun s => s.id != id)).length !=
        snippets.length) = true := by
      simp only [bne_iff_ne, ne_eq]
      omega
    have hdel : deleteList snippets id =
        some (snippets.eraseP (fun s => s.id == id)) := by
      simp only [deleteList, hlen, if_true]
      rw [h1]
    refine ⟨hdel, by rw [← h1]; exact h2, ?_⟩
    intro st hst
    simp [delete, hst, hdel]

/-- Witness for C5: deleting the first record of a concrete two-record
collection removes exactly it and shrinks the length by one. -/
theorem delete_spec_witness :
    deleteList [snipA, snipB] snipA.id =
        some ([snipA, snipB].eraseP (fun s => s.id == snipA.id)) ∧
      ([snipA, snipB].eraseP (fun s => s.id == snipA.id)).length + 1 =
        ([snipA, snipB] : List Snippet).length :=
  ⟨((delete_spec [snipA, snipB] snipA.id (by decide)).2 (by decide)).1,
    ((delete_spec [snipA, snipB] snipA.id (by decide)).2 (by decide)).2.1⟩

/-- Claim C7: update of an unmatched id returns the not-found sentinel and
changes nothing; update of a matched id replaces the first matching record
in place with a record that keeps the identifier and createdAt, takes
exactly the supplied fields from the partial input, keeps every absent
field (tags included), and has updatedAt set to now. -/
theorem update_spec (id : String) (input : UpdateSnippetInput) (now : Nat) :
    (∀ snippets : List Snippet, id ∉ snippets.map Snippet.id →
      updateList id input now snippets = none) ∧
    (∀ (st : FileState) (snippets : List Snippet),
      readJSONFile st = .ok snippets → id ∉ snippets.map Snippet.id →
      update st id input now = .ok (st, none)) ∧
    (∀ (pre : List Snippet) (s : Snippet) (post : List Snippet),
      s.id = id → id ∉ pre.map Snippet.id →
      updateList id input now (pre ++ s :: post) =
        some (pre ++ applyUpdate s input now :: post, applyUpdate s input now)) ∧
    (∀ s : Snippet,
      (applyUpdate s input now).id = s.id ∧
      (applyUpdate s input now).createdAt = s.createdAt ∧
      (applyUpdate s input now).updatedAt = now ∧
      (input.title = none → (applyUpdate s input now).title = s.title) ∧
      (input.description = none →
        (applyUpdate s input now).description = s.description) ∧
      (input.code = none → (applyUpdate s input now).code = s.code) ∧
      (input.language = none → (applyUpdate s input now).language = s.language) ∧
      (input.category = none → (applyUpdate s input now).category = s.category) ∧
      (input.tags = none → (applyUpdate s input now).tags = s.tags) ∧
      (input.favorite = none → (applyUpdate s input now).favorite = s.favorite) ∧
      (∀ v, input.title = some v → (applyUpdate s input now).title = v) ∧
      (∀ v, input.description = some v →
        (applyUpdate s input now).description = v) ∧
      (∀ v, input.code = some v → (applyUpdate s input now).code = v) ∧
      (∀ v, input.language = some v → (applyUpdate s input now).language = v) ∧
      (∀ v, input.category = some v → (applyUpdate s input now).category = v) ∧
      (∀ v, input.tags = some v → (applyUpdate s input now).tags = v) ∧
      (∀ v, input.favorite = some v → (applyUpdate s input now).favorite = v)) := by
  have hnone : ∀ snippets : List Snippet, id ∉ snippets.map Snippet.id →
      updateList id input now snippets = none := by
    intro snippets
    induction snippets with
    | nil => intro _; rfl
    | cons a t ih =>
      intro h
      simp only [List.map_cons, List.mem_cons, not_or] at h
      have ha : (a.id == id) = false := by
        rw [beq_eq_false_iff_ne]
        exact fun e => h.1 (e.symm)
      simp only [updateList, ha, Bool.false_eq_true, if_false]
      rw [ih h.2]
  refine ⟨hnone, ?_, ?_, ?_⟩
  · intro st snippets hst hmem
    simp [update, hst, hnone snippets hmem]
  · intro pre
    induction pre with
    | nil =>
      intro s post hs _
      have hsid : (s.id == id) = true := beq_iff_eq.mpr hs
      simp only [List.nil_append, updateList, hsid, if_true]
    | cons a pre2 ih =>
      intro s post hs hpre
      simp only [List.map_cons, List.mem_cons, not_or] at hpre
      have ha : (a.id == id) = false := by
        rw [beq_eq_false_iff_ne]
        exact fun e => hpre.1 (e.symm)
      simp only [List.cons_append, updateList, ha, Bool.false_eq_true, if_false,
        List.append_eq]
      rw [ih s post hs hpre.2]
  · intro s
    refine ⟨rfl, rfl, rfl, ?_, ?_, ?_, ?_, ?_, ?_, ?_, ?_, ?_, ?_, ?_, ?_, ?_, ?_⟩
    · intro h; simp [applyUpdate, h]
    · intro h; simp [applyUpdate, h]
    · intro h; simp [applyUpdate, h]
    · intro h; simp [applyUpdate, h]
    · intro h; simp [applyUpdate, h]
    · intro h; simp [applyUpdate, h]
    · intro h; simp [applyUpdate, h]
    · intro v h; simp [applyUpdate, h]
    · intro v h; simp [applyUpdate, h]
    · intro v h; simp [applyUpdate, h]
    · intro v h; simp [applyUpdate, h]
    · intro v h; simp [applyUpdate, h]
    · intro v h; simp [applyUpdate, h]
    · intro v h; simp [applyUpdate, h]

/-- Witness for C7: updating the second record of a concrete two-record
collection replaces it in place. -/
theorem update_spec_witness :
    updateList snipB.id sampleUpdate 99 ([snipA] ++ snipB :: []) =
      some ([snipA] ++ applyUpdate snipB sampleUpdate 99 :: [],
        applyUpdate snipB sampleUpdate 99) :=
  (update_spec snipB.id sampleUpdate 99).2.2.1 [snipA] snipB [] rfl (by decide)

/-- Claim C8: sort comparison is case-insensitive on string fields,
orders booleans with false before true, orders timestamps by instant,
is stable (records with equal sort keys keep their relative order), and
obtains descending order by negating the ascending comparison; on the
Zebra/Apple/Mango scenario, title ascending gives Apple, Mango, Zebra and
createdAt descending gives Mango, Apple, Zebra. -/
theorem sortSnippets_rules :
    (filterList [zebraSnip, appleSnip, mangoSnip] { sortBy := some .title } =
        [appleSnip, mangoSnip, zebraSnip] ∧
      filterList [zebraSnip, appleSnip, mangoSnip]
          { sortBy := some .createdAt, sortOrder := some .desc } =
        [mangoSnip, appleSnip, zebraSnip]) ∧
    (∀ (o : SortOrder) (a b a2 b2 : Snippet),
      lowerStr a.title = lowerStr a2.title →
      lowerStr b.title = lowerStr b2.title →
      compareBy ⟨.title, o⟩ a b = compareBy ⟨.title, o⟩ a2 b2) ∧
    (∀ a b : Snippet,
      compareVals (sortVal .favorite a) (sortVal .favorite b) = -1 ↔
        a.favorite = false ∧ b.favorite = true) ∧
    (∀ a b : Snippet,
      compareVals (sortVal .createdAt a) (sortVal .createdAt b) = -1 ↔
        a.createdAt < b.createdAt) ∧
    (∀ (sort : SnippetSort) (l c : List Snippet), c.Sublist l →
      c.Pairwise (fun a b => sortVal sort.field a = sortVal sort.field b) →
      c.Sublist (sortSnippets l sort)) ∧
    (∀ (f : SnippetSortField) (a b : Snippet),
      compareBy ⟨f, .desc⟩ a b = -compareBy ⟨f, .asc⟩ a b) := by
  refine ⟨⟨by decide, by decide⟩, ?_, ?_, ?_, ?_, ?_⟩
  · intro o a b a2 b2 h1 h2
    simp only [compareBy, sortVal]
    rw [h1, h2]
  · intro a b
    cases hfa : a.favorite <;> cases hfb : b.favorite <;>
      simp [sortVal, compareVals, svLtB, hfa, hfb]
  · intro a b
    by_cases h : a.createdAt < b.createdAt
    · simp [sortVal, compareVals, svLtB, h]
    · by_cases h2 : b.createdAt < a.createdAt <;>
        simp [sortVal, compareVals, svLtB, h, h2]
  · intro sort l c hsub hties
    exact List.sublist_insertionSort
      (hties.imp (fun hab => sortLe_of_key_eq sort _ _ hab)) hsub
  · intro f a b
    simp [compareBy]

/-- Witness for C8: the title comparison of two concrete records agrees
with the comparison of their differently-cased variants. -/
theorem sortSnippets_rules_witness :
    compareBy ⟨.title, .asc⟩ upperApple lowerBanana =
      compareBy ⟨.title, .asc⟩ lowerApple upperBanana :=
  sortSnippets_rules.2.1 .asc upperApple lowerBanana lowerApple upperBanana
    (by decide) (by decide)

end Omnisnip
